import Mathlib

/-!
Verification of the Hodgkin–Huxley pipeline in `HH.py`: the time grid and
stimulus generator, the forward-Euler integrator, the finite-difference
derivative traces, and the two threshold/event detectors.

Array-shaped data (the time grid, derivative traces and detector inputs) is
embedded over `ℚ` so every definition is executable; the differential model
itself (kinetic rates built from `exp`) is embedded over `ℝ`.
-/

namespace HH

/-! ### Time grid (`time = np.arange(0, T, dt)`)

`np.arange(start, stop, step)` produces `max 0 ⌈(stop-start)/step⌉` samples
`start + i*step`.  The source constructs the grid with `np.arange(0, T, dt)`
and fixed `T = 1000`, `dt = 0.001`; no validation of `T`, `dt` or the
stimulus width is performed anywhere in the script. -/

def arangeLen (start stop step : ℚ) : ℕ :=
  ⌈(stop - start) / step⌉.toNat

def arange (start stop step : ℚ) : List ℚ :=
  (List.range (arangeLen start stop step)).map (fun i : ℕ => start + (i : ℚ) * step)

def timeGrid (T dt : ℚ) : List ℚ :=
  arange 0 T dt

/-! ### Finite differences (`np.diff(V)/dt` with a trailing appended 0) -/

def npDiff : List ℚ → List ℚ
  | a :: b :: rest => (b - a) :: npDiff (b :: rest)
  | _ => []

def dVdtOf (dt : ℚ) (V : List ℚ) : List ℚ :=
  (npDiff V).map (fun x => x / dt) ++ [0]

def d2VdtOf (dt : ℚ) (V : List ℚ) : List ℚ :=
  (npDiff (dVdtOf dt V)).map (fun x => x / dt) ++ [0]

/-! ### Detectors

Onset: `threshold_i = np.where(dV_dt > threshold_dV_dt)[0]`, then the first
such index is reported as `(time[i], V[i])`, or `None/None` if there is none.

Inflection: the mask is `time > end_stimulus_time` when `StepStrength < 0`
and `(time > StepTime) & (time < end_stimulus_time)` otherwise; candidates
are `np.where(band & mask)[0]` with the closed band
`threshold_d2V_dt_min ≤ d2V_dt ≤ threshold_d2V_dt_max`. -/

def endStimTime (t0 D w : ℚ) : ℚ := t0 + D + 3 * w

def onsetIdx (thr : ℚ) (dV : List ℚ) : List ℕ :=
  (List.range dV.length).filter (fun i => decide (thr < dV.getD i 0))

def onsetEvent (thr : ℚ) (time V dV : List ℚ) : Option (ℚ × ℚ) :=
  ((onsetIdx thr dV).head?).map (fun i => (time.getD i 0, V.getD i 0))

def inflMask (A t0 endStim t : ℚ) : Bool :=
  if A < 0 then decide (endStim < t)
  else decide (t0 < t) && decide (t < endStim)

def inflBand (lo hi x : ℚ) : Bool :=
  decide (lo ≤ x) && decide (x ≤ hi)

def inflIdx (A t0 endStim lo hi : ℚ) (time d2V : List ℚ) : List ℕ :=
  (List.range d2V.length).filter
    (fun i => inflBand lo hi (d2V.getD i 0) && inflMask A t0 endStim (time.getD i 0))

def inflEvent (A t0 endStim lo hi : ℚ) (time V d2V : List ℚ) : Option (ℚ × ℚ) :=
  ((inflIdx A t0 endStim lo hi time d2V).head?).map
    (fun i => (time.getD i 0, V.getD i 0))

/-- Modelled from the spec's words for claim C4 only: the inhibitory
(`A < 0`) window keeps samples *at or after* `end_stimulus_time`
("search only samples at or after `end_stimulus_time`"), whereas the code's
mask `time > end_stimulus_time` is strict. -/
def inflMaskClaim (A t0 endStim t : ℚ) : Bool :=
  if A < 0 then decide (endStim ≤ t)
  else decide (t0 < t) && decide (t < endStim)

def inflIdxClaim (A t0 endStim lo hi : ℚ) (time d2V : List ℚ) : List ℕ :=
  (List.range d2V.length).filter
    (fun i => inflBand lo hi (d2V.getD i 0) && inflMaskClaim A t0 endStim (time.getD i 0))

def inflEventClaim (A t0 endStim lo hi : ℚ) (time V d2V : List ℚ) : Option (ℚ × ℚ) :=
  ((inflIdxClaim A t0 endStim lo hi time d2V).head?).map
    (fun i => (time.getD i 0, V.getD i 0))

/-! ### Kinetic-rate functions and model parameters

Each lambda from the source, transcribed with the literal constants the code
uses (`4*np.exp(-.0556*(V+65))`, not the commented `1/18` form). -/

noncomputable def alphan (V : ℝ) : ℝ := 0.01 * (V + 55) / (1 - Real.exp (-0.1 * (V + 55)))

noncomputable def betan (V : ℝ) : ℝ := 0.125 * Real.exp (-0.0125 * (V + 65))

noncomputable def alpham (V : ℝ) : ℝ := 0.1 * (V + 40) / (1 - Real.exp (-0.1 * (V + 40)))

noncomputable def betam (V : ℝ) : ℝ := 4 * Real.exp (-0.0556 * (V + 65))

noncomputable def alphah (V : ℝ) : ℝ := 0.07 * Real.exp (-0.05 * (V + 65))

noncomputable def betah (V : ℝ) : ℝ := 1 / (1 + Real.exp (-0.1 * (V + 35)))

noncomputable def ninfty (V : ℝ) : ℝ := alphan V / (alphan V + betan V)

noncomputable def minfty (V : ℝ) : ℝ := alpham V / (alpham V + betam V)

noncomputable def hinfty (V : ℝ) : ℝ := alphah V / (alphah V + betah V)

def Cm : ℝ := 1

def gL : ℝ := 0.3

def EL : ℝ := -54.387

def gK : ℝ := 36

def EK : ℝ := -77

def gNa : ℝ := 120

def ENa : ℝ := 50

def IL (V : ℝ) : ℝ := -gL * (V - EL)

def IK (n V : ℝ) : ℝ := -gK * n ^ 4 * (V - EK)

def INa (m h V : ℝ) : ℝ := -gNa * m ^ 3 * h * (V - ENa)

def Iion (n m h V : ℝ) : ℝ := IL V + IK n V + INa m h V

/-! ### Forward-Euler integrator

`V[0]=V0; n[0]=ninfty(V0); m[0]=minfty(V0); h[0]=hinfty(V0)`, then for each
`i in range(len(time)-1)` the gating variables at `i+1` are computed from the
state at `i` (rates at the pre-update voltage `V[i]`) and
`V[i+1] = V[i] + dt*(Iion(n[i],m[i],h[i],V[i]) + Ix[i])/Cm`. -/

structure HHState where
  V : ℝ
  n : ℝ
  m : ℝ
  h : ℝ

noncomputable def hhStep (dt Ixi : ℝ) (s : HHState) : HHState :=
  ⟨s.V + dt * (Iion s.n s.m s.h s.V + Ixi) / Cm,
   s.n + dt * ((1 - s.n) * alphan s.V - s.n * betan s.V),
   s.m + dt * ((1 - s.m) * alpham s.V - s.m * betam s.V),
   s.h + dt * ((1 - s.h) * alphah s.V - s.h * betah s.V)⟩

noncomputable def hhTrace (dt : ℝ) (Ix : ℕ → ℝ) (V0 : ℝ) : ℕ → HHState
  | 0 => ⟨V0, ninfty V0, minfty V0, hinfty V0⟩
  | i + 1 => hhStep dt (Ix i) (hhTrace dt Ix V0 i)

noncomputable def hhRun (N : ℕ) (dt : ℝ) (Ix : ℕ → ℝ) (V0 : ℝ) : List HHState :=
  (List.range N).map (hhTrace dt Ix V0)

/-! ### Stimulus generator

`Ix = np.zeros_like(time) + StepStrength*(norm.cdf(time, StepTime, StepWidth)
- norm.cdf(time, StepTime+StepDuration, StepWidth))`.  `scipy.stats.norm.cdf`
is an external library routine, embedded as an arbitrary function parameter
`Phi` with `norm.cdf(x, loc, scale) = Phi((x - loc)/scale)`. -/

noncomputable def normCdf (Phi : ℝ → ℝ) (x loc scale : ℝ) : ℝ := Phi ((x - loc) / scale)

noncomputable def IxOf (Phi : ℝ → ℝ) (A t0 w D t : ℝ) : ℝ :=
  0 + A * (normCdf Phi t t0 w - normCdf Phi t (t0 + D) w)

noncomputable def IxList (Phi : ℝ → ℝ) (A t0 w D : ℝ) (time : List ℝ) : List ℝ :=
  time.map (IxOf Phi A t0 w D)

/-- Reading the integrator's output arrays at index `j`. -/
noncomputable def stateAt (N : ℕ) (dt : ℝ) (Ix : ℕ → ℝ) (V0 : ℝ) (j : ℕ) : HHState :=
  (hhRun N dt Ix V0).getD j ⟨0, 0, 0, 0⟩

/-! ### Shared helper lemmas -/

lemma head_filter_eq_find (p : ℕ → Bool) (l : List ℕ) :
    (l.filter p).head? = l.find? p := by
  induction l with
  | nil => rfl
  | cons a t ih =>
    by_cases h : p a
    · simp [List.filter_cons, h]
    · simp [List.filter_cons, h, ih]

lemma find_range_eq_some (p : ℕ → Bool) :
    ∀ {N i0 : ℕ}, i0 < N → p i0 = true → (∀ j, j < i0 → p j = false) →
      (List.range N).find? p = some i0 := by
  intro N
  induction N generalizing p with
  | zero => intro i0 h0 _ _; omega
  | succ n ih =>
    intro i0 h0 hp hmin
    rw [List.range_succ_eq_map]
    cases i0 with
    | zero => rw [List.find?_cons_of_pos _ hp]
    | succ k =>
      rw [List.find?_cons_of_neg _ (by simp [hmin 0 (Nat.succ_pos k)])]
      rw [List.find?_map]
      have hrec := @ih (fun j => p (j + 1)) k (by omega) hp
        (fun j hj => hmin (j + 1) (by omega))
      have hco : (p ∘ Nat.succ) = fun j => p (j + 1) := rfl
      rw [hco, hrec]
      rfl

lemma filter_range_eq_nil (p : ℕ → Bool) (N : ℕ) (h : ∀ i, i < N → p i = false) :
    (List.range N).filter p = [] := by
  apply List.filter_eq_nil_iff.mpr
  intro a ha
  simp [h a (List.mem_range.mp ha)]

lemma getD_range_map {α : Type} (f : ℕ → α) (d : α) {N j : ℕ} (hj : j < N) :
    ((List.range N).map f).getD j d = f j := by
  rw [List.getD_eq_getElem?_getD]
  simp [List.getElem?_range hj]

lemma head_of_min {l : List ℕ} (hs : l.Pairwise (· < ·)) {a : ℕ}
    (ha : a ∈ l) (hmin : ∀ b ∈ l, a ≤ b) : l.head? = some a := by
  cases l with
  | nil => cases ha
  | cons c t =>
    have hac : a = c := by
      rcases List.mem_cons.mp ha with h | h
      · exact h
      · have h1 : c < a := (List.pairwise_cons.mp hs).1 a h
        have h2 : a ≤ c := hmin c (List.mem_cons_self c t)
        omega
    simp [hac]

lemma npDiff_length : ∀ V : List ℚ, (npDiff V).length = V.length - 1
  | [] => by simp [npDiff]
  | [a] => by simp [npDiff]
  | a :: b :: rest => by
    have h := npDiff_length (b :: rest)
    simp [npDiff] at h ⊢
    omega

lemma npDiff_getD : ∀ (V : List ℚ) (i : ℕ), i + 1 < V.length →
    (npDiff V).getD i 0 = V.getD (i + 1) 0 - V.getD i 0
  | [], i, h => by simp at h
  | [a], i, h => by simp at h
  | a :: b :: rest, 0, _ => by simp [npDiff]
  | a :: b :: rest, i + 1, h => by
    have hrec := npDiff_getD (b :: rest) i (by simpa using h)
    simpa [npDiff] using hrec

lemma hhRun_getD (dt : ℝ) (Ix : ℕ → ℝ) (V0 : ℝ) (d : HHState) {N j : ℕ}
    (hj : j < N) : (hhRun N dt Ix V0).getD j d = hhTrace dt Ix V0 j :=
  getD_range_map _ _ hj

lemma hhTrace_succ (dt : ℝ) (Ix : ℕ → ℝ) (V0 : ℝ) (i : ℕ) :
    hhTrace dt Ix V0 (i + 1) = hhStep dt (Ix i) (hhTrace dt Ix V0 i) := rfl

lemma hhStep_V (dt Ixi : ℝ) (s : HHState) :
    (hhStep dt Ixi s).V = s.V + dt * (Iion s.n s.m s.h s.V + Ixi) / Cm := rfl

lemma hhStep_n (dt Ixi : ℝ) (s : HHState) :
    (hhStep dt Ixi s).n = s.n + dt * ((1 - s.n) * alphan s.V - s.n * betan s.V) := rfl

lemma hhStep_m (dt Ixi : ℝ) (s : HHState) :
    (hhStep dt Ixi s).m = s.m + dt * ((1 - s.m) * alpham s.V - s.m * betam s.V) := rfl

lemma hhStep_h (dt Ixi : ℝ) (s : HHState) :
    (hhStep dt Ixi s).h = s.h + dt * ((1 - s.h) * alphah s.V - s.h * betah s.V) := rfl

lemma getD_map_div (dt : ℚ) (l : List ℚ) {i : ℕ} (hi : i < l.length) :
    (l.map (fun x => x / dt)).getD i 0 = l.getD i 0 / dt := by
  rw [List.getD_eq_getElem?_getD, List.getElem?_map, List.getElem?_eq_getElem hi,
    List.getD_eq_getElem l 0 hi]
  rfl

lemma filter_range_head_eq (p : ℕ → Bool) {N i0 : ℕ} (h0 : i0 < N)
    (hp : p i0 = true) (hmin : ∀ j, j < i0 → p j = false) :
    ((List.range N).filter p).head? = some i0 := by
  rw [head_filter_eq_find]
  exact find_range_eq_some p h0 hp hmin

lemma hasDerivAt_one_sub_exp (b : ℝ) :
    HasDerivAt (fun x : ℝ => 1 - Real.exp (-b * x)) b 0 := by
  have h1 : HasDerivAt (fun x : ℝ => -b * x) (-b) 0 := by
    simpa using (hasDerivAt_id (0 : ℝ)).const_mul (-b)
  have h2 : HasDerivAt (fun x : ℝ => Real.exp (-b * x))
      (Real.exp (-b * 0) * (-b)) 0 := h1.exp
  have h3 := (hasDerivAt_const (0 : ℝ) (1 : ℝ)).sub h2
  simpa using h3

lemma tendsto_div_one_sub_exp (b : ℝ) (hb : b ≠ 0) :
    Filter.Tendsto (fun x : ℝ => x / (1 - Real.exp (-b * x)))
      (nhdsWithin 0 {x : ℝ | x ≠ 0}) (nhds b⁻¹) := by
  have hslope := hasDerivAt_iff_tendsto_slope.mp (hasDerivAt_one_sub_exp b)
  have hfun : slope (fun x : ℝ => 1 - Real.exp (-b * x)) 0 =
      fun x : ℝ => (1 - Real.exp (-b * x)) / x := by
    funext x
    simp [slope_def_field]
  rw [hfun] at hslope
  have hinv := hslope.inv₀ hb
  have heq : (fun x : ℝ => ((1 - Real.exp (-b * x)) / x)⁻¹) =
      fun x : ℝ => x / (1 - Real.exp (-b * x)) := by
    funext x
    rw [inv_div]
  rwa [heq] at hinv

lemma tendsto_shift (c : ℝ) :
    Filter.Tendsto (fun V : ℝ => V + c) (nhdsWithin (-c) {x : ℝ | x ≠ -c})
      (nhdsWithin 0 {x : ℝ | x ≠ 0}) := by
  rw [tendsto_nhdsWithin_iff]
  constructor
  · have hcont : Continuous fun V : ℝ => V + c := by continuity
    have h0 := hcont.tendsto (-c)
    rw [show -c + c = (0 : ℝ) by ring] at h0
    exact h0.mono_left nhdsWithin_le_nhds
  · filter_upwards [self_mem_nhdsWithin] with V hV
    have hV' : V ≠ -c := hV
    have hne : V + c ≠ 0 := fun h => hV' (by linarith)
    exact hne

lemma tendsto_rate_limit (A b c : ℝ) (hb : b ≠ 0) :
    Filter.Tendsto (fun V : ℝ => A * (V + c) / (1 - Real.exp (-b * (V + c))))
      (nhdsWithin (-c) {x : ℝ | x ≠ -c}) (nhds (A * b⁻¹)) := by
  have hbase := (tendsto_div_one_sub_exp b hb).const_mul A
  have hcomp := hbase.comp (tendsto_shift c)
  have hfun : ((fun x : ℝ => A * (x / (1 - Real.exp (-b * x)))) ∘
      fun V : ℝ => V + c) =
      fun V : ℝ => A * (V + c) / (1 - Real.exp (-b * (V + c))) := by
    funext V
    simp only [Function.comp]
    ring
  rwa [hfun] at hcomp

/-! ### Claim theorems -/

/-- Claim C1 (evidence of the code bug): at the singular voltages the
denominators of `alphan` and `alpham` are exactly zero, so the source
expressions take the unguarded 0/0 form there (numpy propagates NaN, not the
analytic limit); under Lean's total-division convention the value is 0,
which is not the claimed limiting value 0.1 (resp. 1) — even though those
limiting values are indeed the analytic limits of the rate functions at the
singular voltages, as the last two conjuncts prove. -/
theorem C1_rate_singularity_unguarded :
    1 - Real.exp (-0.1 * ((-55 : ℝ) + 55)) = 0 ∧
    1 - Real.exp (-0.1 * ((-40 : ℝ) + 40)) = 0 ∧
    alphan (-55) = 0 ∧ alpham (-40) = 0 ∧
    alphan (-55) ≠ 0.1 ∧ alpham (-40) ≠ 1 ∧
    Filter.Tendsto alphan (nhdsWithin (-55) {x : ℝ | x ≠ -55}) (nhds 0.1) ∧
    Filter.Tendsto alpham (nhdsWithin (-40) {x : ℝ | x ≠ -40}) (nhds 1) := by
  refine ⟨?_, ?_, ?_, ?_, ?_, ?_, ?_, ?_⟩
  · norm_num [Real.exp_zero]
  · norm_num [Real.exp_zero]
  · norm_num [alphan, Real.exp_zero]
  · norm_num [alpham, Real.exp_zero]
  · norm_num [alphan, Real.exp_zero]
  · norm_num [alpham, Real.exp_zero]
  · have h := tendsto_rate_limit 0.01 0.1 55 (by norm_num)
    convert h using 2
    norm_num
  · have h := tendsto_rate_limit 0.1 0.1 40 (by norm_num)
    convert h using 2
    norm_num

/-- Claim C3 (evidence of the code bug): the script validates nothing; with
`dt = -0.001` and the source's `T = 1000`, `np.arange` silently yields an
empty grid, the Euler loop never runs, and an empty trace is produced with no
configuration error being raised. -/
theorem C3_no_validation_empty_pipeline :
    arangeLen 0 1000 (-(1 / 1000)) = 0 ∧
    timeGrid 1000 (-(1 / 1000)) = [] ∧
    hhRun (arangeLen 0 1000 (-(1 / 1000))) (-(1 / 1000)) (fun _ => 0) (-65) = [] := by
  have h : arangeLen 0 1000 (-(1 / 1000)) = 0 := by
    rw [arangeLen]
    rw [show ((1000 : ℚ) - 0) / (-(1 / 1000)) = ((-1000000 : ℤ) : ℚ) by norm_num]
    rw [Int.ceil_intCast]
    rfl
  refine ⟨h, ?_, ?_⟩
  · rw [timeGrid, arange, h]
    rfl
  · rw [h, hhRun]
    rfl

/-- Claim C5: at index 0 the run holds the caller-supplied `V0` and the
steady-state gating values `x_infty(V0) = alpha_x(V0)/(alpha_x(V0)+beta_x(V0))`. -/
theorem C5_initial_state (N : ℕ) (dt V0 : ℝ) (Ix : ℕ → ℝ) (hN : 0 < N) :
    (stateAt N dt Ix V0 0).V = V0 ∧
    (stateAt N dt Ix V0 0).n = alphan V0 / (alphan V0 + betan V0) ∧
    (stateAt N dt Ix V0 0).m = alpham V0 / (alpham V0 + betam V0) ∧
    (stateAt N dt Ix V0 0).h = alphah V0 / (alphah V0 + betah V0) := by
  unfold stateAt
  rw [hhRun_getD _ _ _ _ hN]
  exact ⟨rfl, rfl, rfl, rfl⟩

theorem C5_initial_state_witness :
    0 < 1 ∧
    ((stateAt 1 1 (fun _ => 0) (-65) 0).V = -65 ∧
     (stateAt 1 1 (fun _ => 0) (-65) 0).n = alphan (-65) / (alphan (-65) + betan (-65)) ∧
     (stateAt 1 1 (fun _ => 0) (-65) 0).m = alpham (-65) / (alpham (-65) + betam (-65)) ∧
     (stateAt 1 1 (fun _ => 0) (-65) 0).h = alphah (-65) / (alphah (-65) + betah (-65))) :=
  ⟨Nat.one_pos, C5_initial_state 1 1 (-65) (fun _ => 0) Nat.one_pos⟩

/-- Claim C8: every stimulus sample is
`A * (Phi((t[i]-t0)/w) - Phi((t[i]-(t0+D))/w))` for the grid time `t[i]`,
and the amplitude's sign propagates linearly through the waveform. -/
theorem C8_stimulus_shape (Phi : ℝ → ℝ) (A t0 w D : ℝ) (time : List ℝ) (i : ℕ)
    (hi : i < time.length) :
    (IxList Phi A t0 w D time).getD i 0 =
      A * (Phi ((time.getD i 0 - t0) / w) - Phi ((time.getD i 0 - (t0 + D)) / w)) ∧
    ∀ t : ℝ, IxOf Phi (-A) t0 w D t = -IxOf Phi A t0 w D t := by
  constructor
  · rw [List.getD_eq_getElem?_getD, IxList, List.getElem?_map,
      List.getElem?_eq_getElem hi]
    rw [List.getD_eq_getElem time 0 hi]
    simp [IxOf, normCdf]
  · intro t
    simp [IxOf, normCdf]

theorem C8_stimulus_shape_witness :
    (0 : ℕ) < 1 ∧
    ((IxList id 30 2 1 3 [5]).getD 0 0 =
      30 * (id (([5].getD 0 0 - 2) / 1) - id (([5].getD 0 0 - (2 + 3)) / 1)) ∧
     ∀ t : ℝ, IxOf id (-30) 2 1 3 t = -IxOf id 30 2 1 3 t) :=
  ⟨Nat.one_pos, C8_stimulus_shape id 30 2 1 3 [5] 0 (by simp)⟩

/-- Claim C9: for `dt > 0`, `T > 0` the grid `np.arange(0, T, dt)` has
exactly `⌈T/dt⌉` samples, `t[i] = i·dt`, starts at 0 and is strictly
increasing. -/
theorem C9_time_grid (T dt : ℚ) (hdt : 0 < dt) (hT : 0 < T) :
    (timeGrid T dt).length = ⌈T / dt⌉.toNat ∧
    (timeGrid T dt).head? = some 0 ∧
    (∀ i : ℕ, i < (timeGrid T dt).length → (timeGrid T dt).getD i 0 = i * dt) ∧
    (∀ i j : ℕ, i < j → j < (timeGrid T dt).length →
      (timeGrid T dt).getD i 0 < (timeGrid T dt).getD j 0) := by
  have hsub : ((T : ℚ) - 0) / dt = T / dt := by ring_nf
  have hlenForm : arangeLen 0 T dt = ⌈T / dt⌉.toNat := by
    rw [arangeLen, hsub]
  have hceil : 0 < ⌈T / dt⌉ := Int.ceil_pos.mpr (div_pos hT hdt)
  have hN : 0 < arangeLen 0 T dt := by omega
  have hlen : (timeGrid T dt).length = ⌈T / dt⌉.toNat := by
    rw [timeGrid, arange, List.length_map, List.length_range, hlenForm]
  refine ⟨hlen, ?_, ?_, ?_⟩
  · obtain ⟨k, hk⟩ : ∃ k, arangeLen 0 T dt = k + 1 :=
      ⟨arangeLen 0 T dt - 1, by omega⟩
    rw [timeGrid, arange, hk, List.range_succ_eq_map]
    simp
  · intro i hi
    rw [hlen] at hi
    have hi' : i < arangeLen 0 T dt := by omega
    rw [timeGrid, arange, getD_range_map _ _ hi']
    ring
  · intro i j hij hj
    rw [hlen] at hj
    have hj' : j < arangeLen 0 T dt := by omega
    have hi' : i < arangeLen 0 T dt := by omega
    rw [timeGrid, arange, getD_range_map _ _ hi', getD_range_map _ _ hj']
    have hcast : (i : ℚ) < (j : ℚ) := by exact_mod_cast hij
    have := mul_lt_mul_of_pos_right hcast hdt
    linarith

theorem C9_time_grid_witness :
    (0 : ℚ) < 1 / 2 ∧ (0 : ℚ) < 1 ∧
    ((timeGrid 1 (1 / 2)).length = ⌈(1 : ℚ) / (1 / 2)⌉.toNat ∧
     (timeGrid 1 (1 / 2)).head? = some 0 ∧
     (∀ i : ℕ, i < (timeGrid 1 (1 / 2)).length →
       (timeGrid 1 (1 / 2)).getD i 0 = i * (1 / 2)) ∧
     (∀ i j : ℕ, i < j → j < (timeGrid 1 (1 / 2)).length →
       (timeGrid 1 (1 / 2)).getD i 0 < (timeGrid 1 (1 / 2)).getD j 0)) :=
  ⟨by norm_num, by norm_num, C9_time_grid 1 (1 / 2) (by norm_num) (by norm_num)⟩

/-- Claim C7: `dV_dt` and `d2V_dt` have the same length as `V`, the interior
samples are the forward differences divided by `dt`, and the final element of
each is exactly the appended 0. -/
theorem C7_derivative_traces (dt : ℚ) (V : List ℚ) (hV : V ≠ []) :
    (dVdtOf dt V).length = V.length ∧
    (d2VdtOf dt V).length = V.length ∧
    (∀ i : ℕ, i + 1 < V.length →
      (dVdtOf dt V).getD i 0 = (V.getD (i + 1) 0 - V.getD i 0) / dt) ∧
    (∀ i : ℕ, i + 1 < V.length →
      (d2VdtOf dt V).getD i 0 =
        ((dVdtOf dt V).getD (i + 1) 0 - (dVdtOf dt V).getD i 0) / dt) ∧
    (dVdtOf dt V).getLast? = some 0 ∧
    (d2VdtOf dt V).getLast? = some 0 := by
  have hpos : 0 < V.length := List.length_pos.mpr hV
  have hlen1 : (dVdtOf dt V).length = V.length := by
    rw [dVdtOf, List.length_append, List.length_map, npDiff_length]
    simp only [List.length_singleton]
    omega
  have hlen2 : (d2VdtOf dt V).length = V.length := by
    rw [d2VdtOf, List.length_append, List.length_map, npDiff_length, hlen1]
    simp only [List.length_singleton]
    omega
  refine ⟨hlen1, hlen2, ?_, ?_, ?_, ?_⟩
  · intro i hi
    have hnp : i < (npDiff V).length := by rw [npDiff_length]; omega
    have hmap : i < ((npDiff V).map (fun x => x / dt)).length := by
      rw [List.length_map]; exact hnp
    rw [dVdtOf, List.getD_append _ _ _ _ hmap, getD_map_div dt _ hnp,
      npDiff_getD V i hi]
  · intro i hi
    have hi' : i + 1 < (dVdtOf dt V).length := by omega
    have hnp : i < (npDiff (dVdtOf dt V)).length := by rw [npDiff_length]; omega
    have hmap : i < ((npDiff (dVdtOf dt V)).map (fun x => x / dt)).length := by
      rw [List.length_map]; exact hnp
    rw [d2VdtOf, List.getD_append _ _ _ _ hmap, getD_map_div dt _ hnp,
      npDiff_getD _ i hi']
  · rw [dVdtOf]
    exact List.getLast?_concat _
  · rw [d2VdtOf]
    exact List.getLast?_concat _

theorem C7_derivative_traces_witness :
    ([(1 : ℚ), 3] ≠ []) ∧
    ((dVdtOf 2 [1, 3]).length = [(1 : ℚ), 3].length ∧
     (d2VdtOf 2 [1, 3]).length = [(1 : ℚ), 3].length ∧
     (∀ i : ℕ, i + 1 < [(1 : ℚ), 3].length →
       (dVdtOf 2 [1, 3]).getD i 0 =
         ([(1 : ℚ), 3].getD (i + 1) 0 - [(1 : ℚ), 3].getD i 0) / 2) ∧
     (∀ i : ℕ, i + 1 < [(1 : ℚ), 3].length →
       (d2VdtOf 2 [1, 3]).getD i 0 =
         ((dVdtOf 2 [1, 3]).getD (i + 1) 0 - (dVdtOf 2 [1, 3]).getD i 0) / 2) ∧
     (dVdtOf 2 [1, 3]).getLast? = some 0 ∧
     (d2VdtOf 2 [1, 3]).getLast? = some 0) :=
  ⟨by simp, C7_derivative_traces 2 [1, 3] (by simp)⟩

/-- Claim C6: each detector reports `(time[i0], V[i0])` at the first index
satisfying its condition, returns the sentinel `none` when no index does, and
`none` is distinguishable from every valid pair. -/
theorem C6_detector_first_or_none (thr lo hi A t0 endStim : ℚ)
    (time V dV d2V : List ℚ) :
    (∀ i0 : ℕ, i0 < dV.length → thr < dV.getD i0 0 →
      (∀ j : ℕ, j < i0 → ¬thr < dV.getD j 0) →
      onsetEvent thr time V dV = some (time.getD i0 0, V.getD i0 0)) ∧
    ((∀ i : ℕ, i < dV.length → ¬thr < dV.getD i 0) →
      onsetEvent thr time V dV = none) ∧
    (∀ i0 : ℕ, i0 < d2V.length →
      (lo ≤ d2V.getD i0 0 ∧ d2V.getD i0 0 ≤ hi ∧
        inflMask A t0 endStim (time.getD i0 0) = true) →
      (∀ j : ℕ, j < i0 → ¬(lo ≤ d2V.getD j 0 ∧ d2V.getD j 0 ≤ hi ∧
        inflMask A t0 endStim (time.getD j 0) = true)) →
      inflEvent A t0 endStim lo hi time V d2V =
        some (time.getD i0 0, V.getD i0 0)) ∧
    ((∀ i : ℕ, i < d2V.length → ¬(lo ≤ d2V.getD i 0 ∧ d2V.getD i 0 ≤ hi ∧
        inflMask A t0 endStim (time.getD i 0) = true)) →
      inflEvent A t0 endStim lo hi time V d2V = none) ∧
    (∀ q : ℚ × ℚ, onsetEvent thr time V dV = none →
      onsetEvent thr time V dV ≠ some q) := by
  refine ⟨?_, ?_, ?_, ?_, ?_⟩
  · intro i0 h0 hp hmin
    rw [onsetEvent, onsetIdx,
      filter_range_head_eq _ h0 (by simpa using hp)
        (fun j hj => by simpa using hmin j hj)]
    rfl
  · intro hall
    rw [onsetEvent, onsetIdx, filter_range_eq_nil]
    · rfl
    · intro i hi
      simpa using hall i hi
  · intro i0 h0 hp hmin
    rw [inflEvent, inflIdx,
      filter_range_head_eq _ h0
        (by simp only [inflBand, Bool.and_eq_true, decide_eq_true_eq]
            exact ⟨⟨hp.1, hp.2.1⟩, hp.2.2⟩)
        (fun j hj => by
          have hj' := hmin j hj
          simp only [inflBand, Bool.and_eq_true, decide_eq_true_eq] at hj' ⊢
          rw [Bool.eq_false_iff]
          intro hcontra
          rcases Bool.and_eq_true _ _ |>.mp hcontra with ⟨hband, hmask⟩
          rcases Bool.and_eq_true _ _ |>.mp hband with ⟨hlo, hhi⟩
          exact hj' ⟨by simpa using hlo, by simpa using hhi, hmask⟩)]
    rfl
  · intro hall
    rw [inflEvent, inflIdx, filter_range_eq_nil]
    · rfl
    · intro i hi
      have h := hall i hi
      rw [Bool.eq_false_iff]
      intro hcontra
      rcases Bool.and_eq_true _ _ |>.mp hcontra with ⟨hband, hmask⟩
      rcases Bool.and_eq_true _ _ |>.mp hband with ⟨hlo, hhi⟩
      exact h ⟨by simpa using hlo, by simpa using hhi, hmask⟩
  · intro q hnone
    rw [hnone]
    simp

theorem C6_detector_first_or_none_witness :
    onsetEvent 15 [0, 1] [10, 20] [0, 100] = some ([(0 : ℚ), 1].getD 1 0, [(10 : ℚ), 20].getD 1 0) :=
  (C6_detector_first_or_none 15 0 0 0 0 0 [0, 1] [10, 20] [0, 100] []).1 1
    (by decide) (by norm_num)
    (fun j hj => by
      have hj0 : j = 0 := by omega
      subst hj0
      norm_num)

/-- Claim C4, counterexample: with `A = -1 < 0` and
`end_stimulus_time = 1 + 2 + 3·1 = 6`, the sample at `t[6] = 6` (exactly at
`end_stimulus_time`, second derivative 0, inside the band) is the only
candidate the claim's "at or after" window admits, yet the code's strict
mask `time > end_stimulus_time` rejects it: the code detector returns the
not-found sentinel while the claim predicts `(6, 42)`. -/
theorem C4_window_counterexample :
    inflEvent (-1) 1 (endStimTime 1 2 1) (mkRat (-1) 100) (mkRat 1 100)
      [0, 1, 2, 3, 4, 5, 6] [0, 0, 0, 0, 0, 0, 42] [1, 1, 1, 1, 1, 1, 0] = none ∧
    inflEventClaim (-1) 1 (endStimTime 1 2 1) (mkRat (-1) 100) (mkRat 1 100)
      [0, 1, 2, 3, 4, 5, 6] [0, 0, 0, 0, 0, 0, 42] [1, 1, 1, 1, 1, 1, 0] =
      some (6, 42) := by
  have h : endStimTime 1 2 1 = 6 := by norm_num [endStimTime]
  rw [h]
  constructor
  · decide
  · decide

/-- Claim C4 as amended: when `A < 0` the candidate indices are exactly those
with `t[i]` *strictly after* `end_stimulus_time = t0 + D + 3·w`, otherwise
exactly those with `t0 < t[i] < end_stimulus_time`; within the window the
detector reports the first in-band index as `(t[i], V[i])`. -/
theorem C4_window_selection (A t0 D w lo hi : ℚ) (time V d2V : List ℚ) :
    (∀ i : ℕ, i ∈ inflIdx A t0 (endStimTime t0 D w) lo hi time d2V ↔
      (i < d2V.length ∧ lo ≤ d2V.getD i 0 ∧ d2V.getD i 0 ≤ hi ∧
        ((A < 0 ∧ endStimTime t0 D w < time.getD i 0) ∨
         (¬A < 0 ∧ t0 < time.getD i 0 ∧ time.getD i 0 < endStimTime t0 D w)))) ∧
    (∀ i0 : ℕ, i0 ∈ inflIdx A t0 (endStimTime t0 D w) lo hi time d2V →
      (∀ j ∈ inflIdx A t0 (endStimTime t0 D w) lo hi time d2V, i0 ≤ j) →
      inflEvent A t0 (endStimTime t0 D w) lo hi time V d2V =
        some (time.getD i0 0, V.getD i0 0)) := by
  constructor
  · intro i
    by_cases hA : A < 0 <;>
      simp [inflIdx, List.mem_filter, List.mem_range, inflBand, inflMask, hA,
        and_assoc]
  · intro i0 hmem hmin
    have hs : (inflIdx A t0 (endStimTime t0 D w) lo hi time d2V).Pairwise (· < ·) :=
      List.Pairwise.sublist (List.filter_sublist _) (List.pairwise_lt_range _)
    rw [inflEvent, head_of_min hs hmem hmin]
    rfl

theorem C4_window_selection_witness :
    inflEvent 1 0 (endStimTime 0 2 0) 0 0 [0, 1, 2] [7, 8, 9] [1, 0, 1] =
      some ([(0 : ℚ), 1, 2].getD 1 0, [(7 : ℚ), 8, 9].getD 1 0) :=
  (C4_window_selection 1 0 2 0 0 0 [0, 1, 2] [7, 8, 9] [1, 0, 1]).2 1
    (by
      have h : endStimTime 0 2 0 = 2 := by norm_num [endStimTime]
      rw [h]
      decide)
    (by
      have h : endStimTime 0 2 0 = 2 := by norm_num [endStimTime]
      rw [h]
      decide)

/-- Claim C2: for `i ≤ N-2` the integrator advances each gating variable by
explicit Euler with all rates evaluated at the pre-update voltage `V[i]`, and
`V[i+1] = V[i] + dt·(I_ion + Ix[i])/Cm` with `I_ion` built from the
pre-update gating values. -/
theorem C2_forward_euler_updates (N i : ℕ) (dt V0 : ℝ) (Ix : ℕ → ℝ)
    (hi : i + 2 ≤ N) :
    (stateAt N dt Ix V0 (i + 1)).n =
      (stateAt N dt Ix V0 i).n +
        dt * (alphan (stateAt N dt Ix V0 i).V * (1 - (stateAt N dt Ix V0 i).n) -
          betan (stateAt N dt Ix V0 i).V * (stateAt N dt Ix V0 i).n) ∧
    (stateAt N dt Ix V0 (i + 1)).m =
      (stateAt N dt Ix V0 i).m +
        dt * (alpham (stateAt N dt Ix V0 i).V * (1 - (stateAt N dt Ix V0 i).m) -
          betam (stateAt N dt Ix V0 i).V * (stateAt N dt Ix V0 i).m) ∧
    (stateAt N dt Ix V0 (i + 1)).h =
      (stateAt N dt Ix V0 i).h +
        dt * (alphah (stateAt N dt Ix V0 i).V * (1 - (stateAt N dt Ix V0 i).h) -
          betah (stateAt N dt Ix V0 i).V * (stateAt N dt Ix V0 i).h) ∧
    (stateAt N dt Ix V0 (i + 1)).V =
      (stateAt N dt Ix V0 i).V +
        dt * ((-gL * ((stateAt N dt Ix V0 i).V - EL) -
          gK * (stateAt N dt Ix V0 i).n ^ 4 * ((stateAt N dt Ix V0 i).V - EK) -
          gNa * (stateAt N dt Ix V0 i).m ^ 3 * (stateAt N dt Ix V0 i).h *
            ((stateAt N dt Ix V0 i).V - ENa)) + Ix i) / Cm := by
  have h1 : i + 1 < N := by omega
  have h0 : i < N := by omega
  unfold stateAt
  rw [hhRun_getD _ _ _ _ h1, hhRun_getD _ _ _ _ h0, hhTrace_succ]
  refine ⟨?_, ?_, ?_, ?_⟩
  · rw [hhStep_n]
    ring
  · rw [hhStep_m]
    ring
  · rw [hhStep_h]
    ring
  · rw [hhStep_V]
    simp only [Iion, IL, IK, INa]
    ring

theorem C2_forward_euler_updates_witness :
    0 + 2 ≤ 2 ∧
    ((stateAt 2 1 (fun _ => 0) (-65) (0 + 1)).n =
      (stateAt 2 1 (fun _ => 0) (-65) 0).n +
        1 * (alphan (stateAt 2 1 (fun _ => 0) (-65) 0).V *
            (1 - (stateAt 2 1 (fun _ => 0) (-65) 0).n) -
          betan (stateAt 2 1 (fun _ => 0) (-65) 0).V *
            (stateAt 2 1 (fun _ => 0) (-65) 0).n) ∧
    (stateAt 2 1 (fun _ => 0) (-65) (0 + 1)).m =
      (stateAt 2 1 (fun _ => 0) (-65) 0).m +
        1 * (alpham (stateAt 2 1 (fun _ => 0) (-65) 0).V *
            (1 - (stateAt 2 1 (fun _ => 0) (-65) 0).m) -
          betam (stateAt 2 1 (fun _ => 0) (-65) 0).V *
            (stateAt 2 1 (fun _ => 0) (-65) 0).m) ∧
    (stateAt 2 1 (fun _ => 0) (-65) (0 + 1)).h =
      (stateAt 2 1 (fun _ => 0) (-65) 0).h +
        1 * (alphah (stateAt 2 1 (fun _ => 0) (-65) 0).V *
            (1 - (stateAt 2 1 (fun _ => 0) (-65) 0).h) -
          betah (stateAt 2 1 (fun _ => 0) (-65) 0).V *
            (stateAt 2 1 (fun _ => 0) (-65) 0).h) ∧
    (stateAt 2 1 (fun _ => 0) (-65) (0 + 1)).V =
      (stateAt 2 1 (fun _ => 0) (-65) 0).V +
        1 * ((-gL * ((stateAt 2 1 (fun _ => 0) (-65) 0).V - EL) -
          gK * (stateAt 2 1 (fun _ => 0) (-65) 0).n ^ 4 *
            ((stateAt 2 1 (fun _ => 0) (-65) 0).V - EK) -
          gNa * (stateAt 2 1 (fun _ => 0) (-65) 0).m ^ 3 *
            (stateAt 2 1 (fun _ => 0) (-65) 0).h *
            ((stateAt 2 1 (fun _ => 0) (-65) 0).V - ENa)) + 0) / Cm) :=
  ⟨by omega, C2_forward_euler_updates 2 0 1 (-65) (fun _ => 0) (by omega)⟩

/-- Claim C10: the Euler loop never reads the final stimulus sample — two
runs whose stimulus functions agree on indices `0..N-2` produce identical
output arrays. -/
theorem C10_final_stimulus_sample_unread (N : ℕ) (dt V0 : ℝ) (Ix Ix' : ℕ → ℝ)
    (hagree : ∀ i : ℕ, i + 2 ≤ N → Ix i = Ix' i) :
    hhRun N dt Ix V0 = hhRun N dt Ix' V0 := by
  have key : ∀ j : ℕ, j < N → hhTrace dt Ix V0 j = hhTrace dt Ix' V0 j := by
    intro j
    induction j with
    | zero => intro _; rfl
    | succ k ihk =>
      intro hk
      have hIx : Ix k = Ix' k := hagree k (by omega)
      rw [hhTrace_succ, hhTrace_succ, ihk (by omega), hIx]
  rw [hhRun, hhRun]
  exact List.map_congr_left fun x hx => key x (List.mem_range.mp hx)

theorem C10_final_stimulus_sample_unread_witness :
    hhRun 2 1 (fun _ => 0) (-65) =
      hhRun 2 1 (fun i => if i = 1 then 5 else 0) (-65) :=
  C10_final_stimulus_sample_unread 2 1 (-65) (fun _ => 0)
    (fun i => if i = 1 then 5 else 0)
    (by
      intro i hi
      have h0 : i = 0 := by omega
      subst h0
      norm_num)

end HH
